import Mathlib

/-!  Shallow embedding of platina (src/lib.rs), a parameterized golden-file
testing library: the line-oriented parser, the writer, the
compare-and-update protocol and the run orchestration, modelled over lists
of characters. -/

deriving instance DecidableEq for Except

/-- Strings of the Rust source are modelled as lists of characters. -/
abbrev Str := List Char

/-- Conversion from a Lean string literal to the character-list model. -/
def str (s : String) : Str := s.toList

/-- Whitespace test used by trimming, mirroring char::is_whitespace. -/
def isWs (c : Char) : Bool := c.isWhitespace

/-- Model of str::trim: drop whitespace from both ends of a line. -/
def trim (s : Str) : Str := ((s.dropWhile isWs).reverse.dropWhile isWs).reverse

/-- Prepends a character to the first line of a line list, starting a new
line when there is none. -/
def consHead (c : Char) : List Str → List Str
  | [] => [[c]]
  | l :: ls => (c :: l) :: ls

/-- Splits a character stream into the lines a buffered line reader yields:
every line keeps its trailing newline, and a final fragment without a
newline forms a last line of its own. -/
def toLines : Str → List Str
  | [] => []
  | c :: cs => if c = '\n' then ['\n'] :: toLines cs else consHead c (toLines cs)

/-- Case separator marker of the source, eleven equals signs. -/
def CASE_SEP : Str := ['=', '=', '=', '=', '=', '=', '=', '=', '=', '=', '=']

/-- Parameter separator marker of the source, eleven dashes. -/
def PARAM_SEP : Str := ['-', '-', '-', '-', '-', '-', '-', '-', '-', '-', '-']

/-- Lookup in the parameter map, modelling HashMap::get. -/
def mapGet : List (Str × Str) → Str → Option Str
  | [], _ => none
  | (k, v) :: rest, key => if k = key then some v else mapGet rest key

/-- Insertion in the parameter map, modelling HashMap::insert: the value of
an existing key is replaced, a new key is added. -/
def mapInsert : List (Str × Str) → Str → Str → List (Str × Str)
  | [], key, val => [(key, val)]
  | (k, v) :: rest, key, val =>
    if k = key then (key, val) :: rest else (k, v) :: mapInsert rest key val

/-- Diff records one parameter mismatch, fields as in the source: expected
is the freshly computed value, actual the previously stored one. -/
structure Diff where
  param : Str
  expected : Str
  actual : Str
deriving DecidableEq

/-- TestCase mirrors the source structure: a name, the parameter map, the
parameter insertion order used by the writer, and the recorded diffs. -/
structure TestCase where
  name : Str
  params : List (Str × Str)
  order : List Str
  diffs : List Diff
deriving DecidableEq

/-- Fatal parse failures, one constructor per panic or assertion in
TestCase::new; badCaseHeader and badParamHeader carry the offending
trimmed line, eof models the end-of-file panic, and mapPanic models the
unreachable unwrap on the open parameter. -/
inductive ParseErr where
  | badCaseHeader (found : Str)
  | noCaseName
  | badParamHeader (found : Str)
  | eof
  | mapPanic
deriving DecidableEq

/-- First loop of TestCase::new: skip blank lines until a case header is
found, returning its name and the remaining lines, or the stream ends. -/
def seekHeader : List Str → Except ParseErr (Option (Str × List Str))
  | [] => .ok none
  | l :: rest =>
    if (trim l).isEmpty then seekHeader rest
    else if ['['].isPrefixOf (trim l) && [']'].isSuffixOf (trim l) then
      if 2 < (trim l).length then .ok (some (((trim l).drop 1).dropLast, rest))
      else .error .noCaseName
    else .error (.badCaseHeader (trim l))

/-- Second loop of TestCase::new: read the case body, tracking the
currently open parameter, until the case separator closes the case. -/
def readBody : List Str → Option Str → TestCase → Except ParseErr (TestCase × List Str)
  | [], _, _ => .error .eof
  | l :: rest, some p, c =>
    if PARAM_SEP.isPrefixOf (trim l) then
      match mapGet c.params p with
      | some v => readBody rest none { c with params := mapInsert c.params p v.dropLast }
      | none => .error .mapPanic
    else
      match mapGet c.params p with
      | some v => readBody rest (some p) { c with params := mapInsert c.params p (v ++ l) }
      | none => .error .mapPanic
  | l :: rest, none, c =>
    if CASE_SEP.isPrefixOf (trim l) then .ok (c, rest)
    else if (trim l).isEmpty then readBody rest none c
    else if ['['].isPrefixOf (trim l) && [']'].isSuffixOf (trim l) then
      readBody rest (some (((trim l).drop 1).dropLast))
        { c with params := mapInsert c.params (((trim l).drop 1).dropLast) [],
                 order := c.order ++ [((trim l).drop 1).dropLast] }
    else .error (.badParamHeader (trim l))

/-- TestCase::new: seek a header then read the body; ok none is the normal
end of the case stream. -/
def parseCase (lines : List Str) : Except ParseErr (Option (TestCase × List Str)) :=
  match seekHeader lines with
  | .error e => .error e
  | .ok none => .ok none
  | .ok (some (n, rest)) =>
    match readBody rest none { name := n, params := [], order := [], diffs := [] } with
    | .error e => .error e
    | .ok (c, rest2) => .ok (some (c, rest2))

/-- Fuel-indexed iteration of parseCase, modelling the while-let loop of
run_test_; the fuel never runs out when it exceeds the line count. -/
def parseCasesF : Nat → List Str → Except ParseErr (List TestCase)
  | 0, _ => .error .eof
  | fuel + 1, lines =>
    match parseCase lines with
    | .error e => .error e
    | .ok none => .ok []
    | .ok (some (c, rest)) =>
      match parseCasesF fuel rest with
      | .error e => .error e
      | .ok cs => .ok (c :: cs)

/-- Parses every case of the stream, as the loop in run_test_ does. -/
def parseCases (lines : List Str) : Except ParseErr (List TestCase) :=
  parseCasesF (lines.length + 1) lines

/-- Parameter blocks of TestCase::write in the given order; none models the
unwrap panic on a parameter missing from the map. -/
def writeParams (params : List (Str × Str)) : List Str → Option Str
  | [] => some []
  | p :: ps =>
    match mapGet params p, writeParams params ps with
    | some v, some rest =>
      some (('[' :: (p ++ [']', '\n'])) ++ (v ++ ['\n']) ++ (PARAM_SEP ++ ['\n']) ++ rest)
    | _, _ => none

/-- TestCase::write: the case header, each parameter block in insertion
order, then the case separator followed by a blank line. -/
def TestCase.write (c : TestCase) : Option Str :=
  match writeParams c.params c.order with
  | some body => some (('[' :: (c.name ++ [']', '\n'])) ++ body ++ (CASE_SEP ++ ['\n', '\n']))
  | none => none

/-- Serialization of a whole case sequence, as the update loop does. -/
def writeCases : List TestCase → Option Str
  | [] => some []
  | c :: cs =>
    match c.write, writeCases cs with
    | some a, some b => some (a ++ b)
    | _, _ => none

/-- TestCase::get_param. -/
def TestCase.getParam (c : TestCase) (param : Str) : Option Str := mapGet c.params param

/-- TestCase::compare_and_update_param: store the computed value, and
record a diff against the previous value (empty when absent) when they
differ. -/
def compareAndUpdateParam (c : TestCase) (param expected : Str) : TestCase :=
  if (mapGet c.params param).getD [] = expected then
    { c with params := mapInsert c.params param expected }
  else
    { c with params := mapInsert c.params param expected,
             diffs := c.diffs ++ [⟨param, expected, (mapGet c.params param).getD []⟩] }

/-- Failure aggregation loop of run_test_, accumulating into one string. -/
def buildFailures (cases : List TestCase) : Str :=
  cases.foldl
    (fun acc c =>
      c.diffs.foldl
        (fun a d =>
          a ++ str "PARAM MISMATCH: " ++ d.param ++ str "\nexpected: " ++ d.actual ++
            str "\nactual: " ++ d.expected ++ ['\n'])
        (if c.diffs.isEmpty then acc else acc ++ str "CASE FAILED: " ++ c.name ++ ['\n']))
    []

/-- Run-level errors: a parse failure or the writer's unwrap panic. -/
inductive RunErr where
  | parseFail (e : ParseErr)
  | writePanic
deriving DecidableEq

/-- Observable outcome of run_test_: the aggregated failure text, the file
contents written back in update mode, and whether the final assertion
passed; the run succeeds exactly when the failure text is empty. -/
structure RunOut where
  failures : Str
  written : Option Str
  ok : Bool
deriving DecidableEq

/-- TestFile::run_test_: parse all cases, run the tester on each, aggregate
failures, rewrite the file in update mode, then assert no failures. -/
def runTest (text : Str) (tester : TestCase → TestCase) (update : Bool) :
    Except RunErr RunOut :=
  match parseCases (toLines text) with
  | .error e => .error (.parseFail e)
  | .ok cs =>
    if update then
      match writeCases (cs.map tester) with
      | some out =>
        .ok ⟨buildFailures (cs.map tester), some out, (buildFailures (cs.map tester)).isEmpty⟩
      | none => .error .writePanic
    else .ok ⟨buildFailures (cs.map tester), none, (buildFailures (cs.map tester)).isEmpty⟩

/-- Mismatch record as the spec describes it: it names the parameter, its
expected field shows the previously stored value (the diff's actual field)
and its actual field the newly computed one (the diff's expected field). -/
def diffReport (d : Diff) : Str :=
  str "PARAM MISMATCH: " ++ d.param ++ str "\nexpected: " ++ d.actual ++
    str "\nactual: " ++ d.expected ++ ['\n']

/-- Case report as the spec describes it: nothing for an empty diff list,
otherwise a case-level marker with the case name followed by one mismatch
record per diff, in append order. -/
def caseReport (c : TestCase) : Str :=
  if c.diffs = [] then []
  else (str "CASE FAILED: " ++ c.name ++ ['\n']) ++ (c.diffs.map diffReport).flatten

/-- Aggregated report as the spec describes it: case reports joined in
file order. -/
def reportSpec (cases : List TestCase) : Str := (cases.map caseReport).flatten

/-- Value whose lines never match the parameter separator, so that its
serialized block parses back intact. -/
def valOk (v : Str) : Bool :=
  (toLines (v ++ ['\n'])).all fun m => !(PARAM_SEP.isPrefixOf (trim m))

/-- Parameter of a map that serializes faithfully: its name holds no
newline and its stored value satisfies valOk. -/
def paramOk (params : List (Str × Str)) (p : Str) : Bool :=
  !(p.contains '\n') &&
    (match mapGet params p with
     | some v => valOk v
     | none => false)

/-- Case that serializes faithfully: a nonempty newline-free name and
faithful parameters throughout the order list. -/
def wfCase (c : TestCase) : Bool :=
  !(c.name.isEmpty) && !(c.name.contains '\n') && c.order.all (paramOk c.params)

/-- Agreement of a parsed case with the original: same name, same order,
and the same stored value at every ordered parameter. -/
def SameCase (a b : TestCase) : Prop :=
  a.name = b.name ∧ a.order = b.order ∧ ∀ p ∈ b.order, mapGet a.params p = mapGet b.params p

/-- Rebuilding of a parameter map by inserting, in order, each listed key
with its value taken from a source map; describes the parameter map that
parsing a written case produces. -/
def insertFrom (src : List (Str × Str)) : List (Str × Str) → List Str → List (Str × Str)
  | m, [] => m
  | m, p :: ps => insertFrom src (mapInsert m p ((mapGet src p).getD [])) ps

/-! Basic lemmas about the parameter map. -/

theorem mapGet_mapInsert_self (m : List (Str × Str)) (k v : Str) :
    mapGet (mapInsert m k v) k = some v := by
  induction m with
  | nil => simp [mapGet, mapInsert]
  | cons kv rest ih =>
    obtain ⟨a, b⟩ := kv
    by_cases h : a = k
    · simp [mapInsert, h, mapGet]
    · simp [mapInsert, h, mapGet, ih]

theorem mapGet_mapInsert_ne (m : List (Str × Str)) (k v q : Str) (h : k ≠ q) :
    mapGet (mapInsert m k v) q = mapGet m q := by
  induction m with
  | nil => simp [mapGet, mapInsert, h]
  | cons kv rest ih =>
    obtain ⟨a, b⟩ := kv
    by_cases ha : a = k
    · subst ha
      simp [mapInsert, mapGet, h, ih]
    · simp [mapInsert, ha, mapGet, ih]

theorem mapInsert_mapInsert (m : List (Str × Str)) (k v w : Str) :
    mapInsert (mapInsert m k v) k w = mapInsert m k w := by
  induction m with
  | nil => simp [mapInsert]
  | cons kv rest ih =>
    obtain ⟨a, b⟩ := kv
    by_cases h : a = k
    · simp [mapInsert, h]
    · simp [mapInsert, h, ih]

/-! Lemmas about the line splitter. -/

theorem consHead_ne_nil (c : Char) (L : List Str) : consHead c L ≠ [] := by
  cases L <;> simp [consHead]

theorem toLines_cons_ne_nil (c : Char) (cs : Str) : toLines (c :: cs) ≠ [] := by
  simp only [toLines]
  split
  · simp
  · exact consHead_ne_nil c (toLines cs)

theorem toLines_eq_nil_iff (s : Str) : toLines s = [] ↔ s = [] := by
  cases s with
  | nil => simp [toLines]
  | cons c cs => simp [toLines_cons_ne_nil]

theorem toLines_flatten (s : Str) : (toLines s).flatten = s := by
  induction s with
  | nil => rfl
  | cons c cs ih =>
    simp only [toLines]
    by_cases h : c = '\n'
    · simp [h, List.flatten, ih]
    · simp only [h, if_false]
      cases htl : toLines cs with
      | nil =>
        have hnil : cs = [] := (toLines_eq_nil_iff cs).mp htl
        simp [consHead, hnil]
      | cons l ls =>
        have hfl : (l :: ls).flatten = cs := by rw [← htl]; exact ih
        simp only [List.flatten_cons] at hfl
        simp [consHead, List.flatten_cons, hfl]

theorem toLines_line (m s : Str) (h : '\n' ∉ m) :
    toLines (m ++ '\n' :: s) = (m ++ ['\n']) :: toLines s := by
  induction m with
  | nil => simp [toLines]
  | cons c m' ih =>
    have hc : ¬(c = '\n') := fun hc => h (hc ▸ List.mem_cons_self c m')
    have hm : '\n' ∉ m' := fun hm => h (List.mem_cons_of_mem c hm)
    rw [List.cons_append]
    simp only [toLines, hc, if_false, ih hm, consHead, List.cons_append]

theorem toLines_append_nl (t s : Str) :
    toLines ((t ++ ['\n']) ++ s) = toLines (t ++ ['\n']) ++ toLines s := by
  induction t with
  | nil => simp [toLines]
  | cons c t' ih =>
    have ih' : toLines (t' ++ '\n' :: s) = toLines (t' ++ ['\n']) ++ toLines s := by
      simpa [List.append_assoc] using ih
    by_cases h : c = '\n'
    · subst h
      simp [toLines, ih']
    · obtain ⟨l, ls, hls⟩ : ∃ l ls, toLines (t' ++ ['\n']) = l :: ls := by
        cases ht : toLines (t' ++ ['\n']) with
        | nil => exact absurd ((toLines_eq_nil_iff _).mp ht) (by simp)
        | cons l ls => exact ⟨l, ls, rfl⟩
      simp only [List.cons_append, toLines, h, if_false, List.append_eq]
      rw [List.append_assoc, List.singleton_append, ih', hls]
      simp [consHead]

/-! Lemmas about trimming and the separator markers. -/

theorem trim_bracket (s : Str) : trim ('[' :: (s ++ [']', '\n'])) = '[' :: (s ++ [']']) := by
  have h1 : isWs '[' = false := by decide
  have h2 : isWs ']' = false := by decide
  have h3 : isWs '\n' = true := by decide
  simp [trim, List.dropWhile_cons, h1, h2, h3, List.reverse_append]

theorem psep_trim_nl : PARAM_SEP.isPrefixOf (trim (PARAM_SEP ++ ['\n'])) = true := by decide

theorem csep_trim_nl : CASE_SEP.isPrefixOf (trim (CASE_SEP ++ ['\n'])) = true := by decide

theorem csep_not_bracket (l : Str) : CASE_SEP.isPrefixOf ('[' :: l) = false := by
  simp [CASE_SEP, List.isPrefixOf]

theorem bracket_open_head (l : Str) : ['['].isPrefixOf ('[' :: l) = true := by
  simp [List.isPrefixOf]

theorem bracket_close_last (l : Str) : [']'].isSuffixOf (l ++ [']']) = true := by
  simp [List.isSuffixOf, List.reverse_append, List.isPrefixOf]

/-! Stepping lemmas for the body reader. -/

theorem readBody_header (p : Str) (rest : List Str) (c : TestCase) :
    readBody (('[' :: (p ++ [']', '\n'])) :: rest) none c =
      readBody rest (some p)
        { c with params := mapInsert c.params p [], order := c.order ++ [p] } := by
  have hsfx : [']'].isSuffixOf ('[' :: (p ++ [']'])) = true := by
    have := bracket_close_last ('[' :: p)
    simpa using this
  simp only [readBody, trim_bracket, csep_not_bracket, Bool.false_eq_true, if_false,
    List.isEmpty_cons, bracket_open_head, hsfx, Bool.and_self, if_true,
    List.drop_succ_cons, List.drop_zero, List.dropLast_concat]

theorem readBody_close (p l : Str) (rest : List Str) (c : TestCase) (v : Str)
    (hget : mapGet c.params p = some v) (hsep : PARAM_SEP.isPrefixOf (trim l) = true) :
    readBody (l :: rest) (some p) c =
      readBody rest none { c with params := mapInsert c.params p v.dropLast } := by
  simp only [readBody, hsep, if_true, hget]

theorem readBody_push (p l : Str) (rest : List Str) (c : TestCase) (v : Str)
    (hget : mapGet c.params p = some v) (hsep : PARAM_SEP.isPrefixOf (trim l) = false) :
    readBody (l :: rest) (some p) c =
      readBody rest (some p) { c with params := mapInsert c.params p (v ++ l) } := by
  simp only [readBody, hsep, Bool.false_eq_true, if_false, hget]

theorem readBody_run (p : Str) (body : List Str) (sep : Str) (rest : List Str)
    (c : TestCase) (v0 : Str) (hget : mapGet c.params p = some v0)
    (hbody : ∀ m ∈ body, PARAM_SEP.isPrefixOf (trim m) = false)
    (hsep : PARAM_SEP.isPrefixOf (trim sep) = true) :
    readBody (body ++ sep :: rest) (some p) c =
      readBody rest none
        { c with params := mapInsert c.params p (v0 ++ body.flatten).dropLast } := by
  induction body generalizing c v0 with
  | nil =>
    simp only [List.nil_append, List.flatten_nil, List.append_nil]
    exact readBody_close p sep rest c v0 hget hsep
  | cons m body' ih =>
    rw [List.cons_append,
      readBody_push p m _ c v0 hget (hbody m (List.mem_cons_self m body'))]
    rw [ih _ (v0 ++ m) (mapGet_mapInsert_self c.params p (v0 ++ m))
      (fun x hx => hbody x (List.mem_cons_of_mem m hx))]
    simp [mapInsert_mapInsert, List.append_assoc]

theorem readBody_block (p v : Str) (rest : List Str) (c : TestCase)
    (hv : valOk v = true) :
    readBody
      (('[' :: (p ++ [']', '\n'])) ::
        (toLines (v ++ ['\n']) ++ (PARAM_SEP ++ ['\n']) :: rest)) none c =
      readBody rest none
        { c with params := mapInsert c.params p v, order := c.order ++ [p] } := by
  rw [readBody_header]
  have hbody : ∀ m ∈ toLines (v ++ ['\n']), PARAM_SEP.isPrefixOf (trim m) = false := by
    intro m hm
    have := (List.all_eq_true.mp hv) m hm
    simpa using this
  rw [readBody_run p _ _ rest _ []
    (mapGet_mapInsert_self c.params p []) hbody psep_trim_nl]
  simp [mapInsert_mapInsert, toLines_flatten, List.dropLast_concat]

/-! Lemmas about the header seeker and the case loop. -/

theorem seekHeader_hdr (n : Str) (rest : List Str) (hn : n ≠ []) :
    seekHeader (('[' :: (n ++ [']', '\n'])) :: rest) = .ok (some (n, rest)) := by
  have hsfx : [']'].isSuffixOf ('[' :: (n ++ [']'])) = true := by
    have := bracket_close_last ('[' :: n)
    simpa using this
  have hlen : 2 < ('[' :: (n ++ [']'])).length := by
    simp [List.length_cons, List.length_append]
    exact List.length_pos.mpr hn
  simp only [seekHeader, trim_bracket, List.isEmpty_cons, Bool.false_eq_true, if_false,
    bracket_open_head, hsfx, Bool.and_self, if_true, hlen,
    List.drop_succ_cons, List.drop_zero, List.dropLast_concat]

theorem seekHeader_blank (l : Str) (ls : List Str) (h : (trim l).isEmpty = true) :
    seekHeader (l :: ls) = seekHeader ls := by
  simp [seekHeader, h]

theorem seekHeader_len (lines : List Str) :
    ∀ n rest, seekHeader lines = .ok (some (n, rest)) → rest.length < lines.length := by
  induction lines with
  | nil => intro n rest h; simp [seekHeader] at h
  | cons l ls ih =>
    intro n rest h
    by_cases h1 : (trim l).isEmpty = true
    · rw [seekHeader_blank l ls h1] at h
      exact Nat.lt_succ_of_lt (ih n rest h)
    · by_cases h2 : (['['].isPrefixOf (trim l) && [']'].isSuffixOf (trim l)) = true
      · by_cases h3 : 2 < (trim l).length
        · simp only [seekHeader, h1, Bool.false_eq_true, if_false, h2, if_true, h3] at h
          simp only [Except.ok.injEq, Option.some.injEq, Prod.mk.injEq] at h
          obtain ⟨-, hr⟩ := h
          subst hr
          exact Nat.lt_succ_self _
        · simp [seekHeader, h1, h2, h3] at h
      · simp [seekHeader, h1, h2] at h

theorem readBody_len (lines : List Str) :
    ∀ cur c c2 rest, readBody lines cur c = .ok (c2, rest) → rest.length < lines.length := by
  induction lines with
  | nil => intro cur c c2 rest h; simp [readBody] at h
  | cons l ls ih =>
    intro cur c c2 rest h
    cases cur with
    | some p =>
      simp only [readBody] at h
      split at h <;> (cases hg : mapGet c.params p <;> rw [hg] at h) <;>
        first
          | exact Nat.lt_succ_of_lt (ih _ _ _ _ h)
          | simp at h
    | none =>
      simp only [readBody] at h
      split at h
      · simp only [Except.ok.injEq, Prod.mk.injEq] at h
        obtain ⟨-, hr⟩ := h
        subst hr
        exact Nat.lt_succ_self _
      · split at h
        · exact Nat.lt_succ_of_lt (ih _ _ _ _ h)
        · split at h
          · exact Nat.lt_succ_of_lt (ih _ _ _ _ h)
          · simp at h

theorem parseCase_len (lines : List Str) (c : TestCase) (rest : List Str)
    (h : parseCase lines = .ok (some (c, rest))) : rest.length < lines.length := by
  unfold parseCase at h
  split at h
  · exact absurd h (by simp)
  · exact absurd h (by simp)
  · rename_i n mid hs
    split at h
    · exact absurd h (by simp)
    · rename_i c2 rest2 hr
      simp only [Except.ok.injEq, Option.some.injEq, Prod.mk.injEq] at h
      obtain ⟨-, hr2⟩ := h
      subst hr2
      exact Nat.lt_trans (readBody_len mid none _ c2 rest2 hr) (seekHeader_len lines n mid hs)

theorem parseCasesF_congr (f1 : Nat) :
    ∀ f2 lines, lines.length < f1 → lines.length < f2 →
      parseCasesF f1 lines = parseCasesF f2 lines := by
  induction f1 with
  | zero => intro f2 lines h1 h2; omega
  | succ a ih =>
    intro f2 lines h1 h2
    cases f2 with
    | zero => omega
    | succ b =>
      simp only [parseCasesF]
      cases hp : parseCase lines with
      | error e => rfl
      | ok o =>
        cases o with
        | none => rfl
        | some pair =>
          obtain ⟨c, rest⟩ := pair
          have hlt := parseCase_len lines c rest hp
          dsimp only
          rw [ih b rest (by omega) (by omega)]

theorem parseCases_eq (lines : List Str) :
    parseCases lines =
      match parseCase lines with
      | .error e => .error e
      | .ok none => .ok []
      | .ok (some (c, rest)) =>
        match parseCases rest with
        | .error e => .error e
        | .ok cs => .ok (c :: cs) := by
  show parseCasesF (lines.length + 1) lines = _
  simp only [parseCasesF]
  cases hp : parseCase lines with
  | error e => rfl
  | ok o =>
    cases o with
    | none => rfl
    | some pair =>
      obtain ⟨c, rest⟩ := pair
      have hlt := parseCase_len lines c rest hp
      dsimp only
      rw [parseCasesF_congr lines.length (rest.length + 1) rest hlt (Nat.lt_succ_self _)]
      rfl

theorem parseCases_blank (l : Str) (ls : List Str) (h : (trim l).isEmpty = true) :
    parseCases (l :: ls) = parseCases ls := by
  have hpc : parseCase (l :: ls) = parseCase ls := by
    unfold parseCase
    rw [seekHeader_blank l ls h]
  rw [parseCases_eq (l :: ls), hpc, parseCases_eq ls]

/-! Lemmas towards the round trip. -/

theorem contains_false_not_mem (p : Str) (c : Char) (h : p.contains c = false) : c ∉ p := by
  induction p with
  | nil => simp
  | cons a as ih =>
    intro hm
    rcases List.mem_cons.mp hm with h1 | h2
    · subst h1
      simp [List.contains_cons] at h
    · simp only [List.contains_cons, Bool.or_eq_false_iff] at h
      exact absurd h2 (ih h.2)

theorem toLines_hdr (n s : Str) (hn : '\n' ∉ n) :
    toLines (('[' :: (n ++ [']', '\n'])) ++ s) = ('[' :: (n ++ [']', '\n'])) :: toLines s := by
  have hm : '\n' ∉ '[' :: (n ++ [']']) := by
    intro h
    rcases List.mem_cons.mp h with h1 | h2
    · exact absurd h1 (by decide)
    · rcases List.mem_append.mp h2 with h3 | h4
      · exact hn h3
      · simp only [List.mem_singleton] at h4
        exact absurd h4 (by decide)
  have hl := toLines_line ('[' :: (n ++ [']'])) s hm
  simpa [List.append_assoc] using hl

theorem toLines_psepline (s : Str) :
    toLines ((PARAM_SEP ++ ['\n']) ++ s) = (PARAM_SEP ++ ['\n']) :: toLines s := by
  have hl := toLines_line PARAM_SEP s (by decide)
  simpa [List.append_assoc] using hl

theorem toLines_csepline (s : Str) :
    toLines ((CASE_SEP ++ ['\n']) ++ s) = (CASE_SEP ++ ['\n']) :: toLines s := by
  have hl := toLines_line CASE_SEP s (by decide)
  simpa [List.append_assoc] using hl

theorem mapGet_insertFrom_nmem (src : List (Str × Str)) (ps : List Str) :
    ∀ m p, p ∉ ps → mapGet (insertFrom src m ps) p = mapGet m p := by
  induction ps with
  | nil => intro m p _; rfl
  | cons q ps' ih =>
    intro m p h
    have hpq : q ≠ p := fun e => h (e ▸ List.mem_cons_self q ps')
    rw [insertFrom, ih _ p (fun hp => h (List.mem_cons_of_mem q hp))]
    exact mapGet_mapInsert_ne m q _ p hpq

theorem mapGet_insertFrom_mem (src : List (Str × Str)) (ps : List Str) :
    ∀ m p v, p ∈ ps → mapGet src p = some v → mapGet (insertFrom src m ps) p = some v := by
  induction ps with
  | nil => intro m p v h _; exact absurd h (List.not_mem_nil p)
  | cons q ps' ih =>
    intro m p v hmem hv
    by_cases hps : p ∈ ps'
    · rw [insertFrom]
      exact ih _ p v hps hv
    · have hpq : p = q := by
        rcases List.mem_cons.mp hmem with h | h
        · exact h
        · exact absurd h hps
      subst hpq
      rw [insertFrom, mapGet_insertFrom_nmem src ps' _ p hps, hv]
      simp [mapGet_mapInsert_self]

theorem parse_writeParams (src : List (Str × Str)) (ps : List Str) :
    ∀ body, writeParams src ps = some body →
      (∀ p ∈ ps, paramOk src p = true) →
      ∀ (tail : Str) (acc : TestCase),
        readBody (toLines (body ++ tail)) none acc =
          readBody (toLines tail) none
            { acc with params := insertFrom src acc.params ps, order := acc.order ++ ps } := by
  induction ps with
  | nil =>
    intro body hb _ tail acc
    simp only [writeParams, Option.some.injEq] at hb
    subst hb
    simp [insertFrom]
  | cons p ps' ih =>
    intro body hb hok tail acc
    rw [writeParams] at hb
    cases hg : mapGet src p with
    | none => rw [hg] at hb; exact absurd hb (by simp)
    | some v =>
      rw [hg] at hb
      cases hrest : writeParams src ps' with
      | none => rw [hrest] at hb; exact absurd hb (by simp)
      | some rest =>
        rw [hrest] at hb
        simp only [Option.some.injEq] at hb
        have hpok := hok p (List.mem_cons_self p ps')
        simp only [paramOk, hg, Bool.and_eq_true, Bool.not_eq_true'] at hpok
        obtain ⟨hc, hv⟩ := hpok
        have hp : '\n' ∉ p := contains_false_not_mem p '\n' hc
        have e1 : body ++ tail =
            ('[' :: (p ++ [']', '\n'])) ++
              ((v ++ ['\n']) ++ ((PARAM_SEP ++ ['\n']) ++ (rest ++ tail))) := by
          rw [← hb]
          simp [List.append_assoc]
        have hlines : toLines (body ++ tail) =
            ('[' :: (p ++ [']', '\n'])) ::
              (toLines (v ++ ['\n']) ++ (PARAM_SEP ++ ['\n']) :: toLines (rest ++ tail)) := by
          rw [e1, toLines_hdr _ _ hp, toLines_append_nl, toLines_psepline]
        rw [hlines, readBody_block p v _ acc hv]
        rw [ih rest hrest (fun q hq => hok q (List.mem_cons_of_mem p hq)) tail _]
        simp [insertFrom, hg, List.append_assoc]

theorem parse_writeCase (c : TestCase) (out future : Str) (hw : c.write = some out)
    (hwf : wfCase c = true) :
    parseCase (toLines (out ++ future)) =
      .ok (some ({ name := c.name, params := insertFrom c.params [] c.order,
                   order := c.order, diffs := [] }, ['\n'] :: toLines future)) := by
  rw [TestCase.write] at hw
  cases hwp : writeParams c.params c.order with
  | none => rw [hwp] at hw; exact absurd hw (by simp)
  | some body =>
    rw [hwp] at hw
    simp only [Option.some.injEq] at hw
    rw [wfCase, Bool.and_eq_true, Bool.and_eq_true] at hwf
    obtain ⟨⟨hne, hnc⟩, hall⟩ := hwf
    have hnameNe : c.name ≠ [] := by
      intro h
      rw [h] at hne
      simp at hne
    have hnc' : c.name.contains '\n' = false := by simpa using hnc
    have hnameNl : '\n' ∉ c.name := contains_false_not_mem c.name '\n' hnc'
    have hok : ∀ p ∈ c.order, paramOk c.params p = true := List.all_eq_true.mp hall
    have e1 : out ++ future =
        ('[' :: (c.name ++ [']', '\n'])) ++
          (body ++ ((CASE_SEP ++ ['\n']) ++ ('\n' :: future))) := by
      rw [← hw]
      simp [List.append_assoc]
    have hlines : toLines (out ++ future) =
        ('[' :: (c.name ++ [']', '\n'])) ::
          toLines (body ++ ((CASE_SEP ++ ['\n']) ++ ('\n' :: future))) := by
      rw [e1, toLines_hdr _ _ hnameNl]
    unfold parseCase
    rw [hlines, seekHeader_hdr _ _ hnameNe]
    dsimp only
    rw [parse_writeParams c.params c.order body hwp hok _ _]
    rw [toLines_csepline]
    simp only [readBody, csep_trim_nl, if_true]
    simp [toLines]

theorem sameCase_parsed (c : TestCase) (hwf : wfCase c = true) :
    SameCase { name := c.name, params := insertFrom c.params [] c.order,
               order := c.order, diffs := [] } c := by
  refine ⟨rfl, rfl, ?_⟩
  intro p hp
  rw [wfCase, Bool.and_eq_true, Bool.and_eq_true] at hwf
  obtain ⟨-, hall⟩ := hwf
  have hpok := List.all_eq_true.mp hall p hp
  cases hg : mapGet c.params p with
  | none => simp [paramOk, hg] at hpok
  | some v =>
    exact mapGet_insertFrom_mem c.params c.order [] p v hp hg

theorem roundtrip (cs : List TestCase) :
    ∀ text, (∀ c ∈ cs, wfCase c = true) → writeCases cs = some text →
      ∃ parsed, parseCases (toLines text) = .ok parsed ∧ List.Forall₂ SameCase parsed cs := by
  induction cs with
  | nil =>
    intro text _ hw
    simp only [writeCases, Option.some.injEq] at hw
    subst hw
    exact ⟨[], by decide, List.Forall₂.nil⟩
  | cons c cs' ih =>
    intro text hwf hw
    rw [writeCases] at hw
    cases hwc : c.write with
    | none => rw [hwc] at hw; exact absurd hw (by simp)
    | some out =>
      rw [hwc] at hw
      cases hwcs : writeCases cs' with
      | none => rw [hwcs] at hw; exact absurd hw (by simp)
      | some text' =>
        rw [hwcs] at hw
        simp only [Option.some.injEq] at hw
        subst hw
        obtain ⟨parsed', hp', hf'⟩ :=
          ih text' (fun x hx => hwf x (List.mem_cons_of_mem c hx)) hwcs
        have hpc := parse_writeCase c out text' hwc (hwf c (List.mem_cons_self c cs'))
        refine ⟨{ name := c.name, params := insertFrom c.params [] c.order,
                  order := c.order, diffs := [] } :: parsed', ?_, ?_⟩
        · rw [parseCases_eq, hpc]
          dsimp only
          rw [parseCases_blank _ _ (by decide), hp']
        · exact List.Forall₂.cons (sameCase_parsed c (hwf c (List.mem_cons_self c cs'))) hf'

/-! Lemmas about the failure report and the run orchestration. -/

theorem diffs_foldl (ds : List Diff) : ∀ a : Str,
    ds.foldl
      (fun a d =>
        a ++ str "PARAM MISMATCH: " ++ d.param ++ str "\nexpected: " ++ d.actual ++
          str "\nactual: " ++ d.expected ++ ['\n']) a
      = a ++ (ds.map diffReport).flatten := by
  induction ds with
  | nil => intro a; simp
  | cons d ds' ih =>
    intro a
    rw [List.foldl_cons, ih]
    simp [diffReport, List.append_assoc]

theorem buildFailures_acc (cases : List TestCase) : ∀ acc : Str,
    List.foldl
      (fun acc c =>
        c.diffs.foldl
          (fun a d =>
            a ++ str "PARAM MISMATCH: " ++ d.param ++ str "\nexpected: " ++ d.actual ++
              str "\nactual: " ++ d.expected ++ ['\n'])
          (if c.diffs.isEmpty then acc else acc ++ str "CASE FAILED: " ++ c.name ++ ['\n']))
      acc cases = acc ++ reportSpec cases := by
  induction cases with
  | nil => intro acc; simp [reportSpec]
  | cons c cs ih =>
    intro acc
    rw [List.foldl_cons, diffs_foldl, ih]
    by_cases h : c.diffs.isEmpty
    · have hd : c.diffs = [] := by
        cases hcd : c.diffs
        · rfl
        · rw [hcd] at h; simp at h
      simp [reportSpec, caseReport, hd, h]
    · have hd : c.diffs ≠ [] := by
        intro hcd
        rw [hcd] at h
        simp at h
      simp only [h, if_false]
      simp [reportSpec, caseReport, hd, List.append_assoc]

theorem buildFailures_eq (cases : List TestCase) :
    buildFailures cases = reportSpec cases := by
  have h := buildFailures_acc cases []
  simpa [buildFailures] using h

theorem flatten_ne_nil (L : List Str) (l : Str) (hl : l ∈ L) (h : l ≠ []) :
    L.flatten ≠ [] := by
  induction L with
  | nil => exact absurd hl (List.not_mem_nil l)
  | cons a L' ih =>
    rcases List.mem_cons.mp hl with h1 | h2
    · subst h1
      intro heq
      rw [List.flatten_cons] at heq
      exact h (List.append_eq_nil.mp heq).1
    · intro heq
      rw [List.flatten_cons] at heq
      exact ih h2 (List.append_eq_nil.mp heq).2

theorem caseReport_ne_nil (c : TestCase) (hd : c.diffs ≠ []) : caseReport c ≠ [] := by
  simp only [caseReport, hd, if_false]
  intro heq
  rcases List.append_eq_nil.mp heq with ⟨h1, -⟩
  rcases List.append_eq_nil.mp h1 with ⟨h2, -⟩
  rcases List.append_eq_nil.mp h2 with ⟨h3, -⟩
  exact absurd h3 (by decide)

theorem buildFailures_ne_nil (cases : List TestCase) (c : TestCase) (hc : c ∈ cases)
    (hd : c.diffs ≠ []) : buildFailures cases ≠ [] := by
  rw [buildFailures_eq, reportSpec]
  exact flatten_ne_nil _ (caseReport c) (List.mem_map_of_mem caseReport hc)
    (caseReport_ne_nil c hd)

theorem isEmpty_false_of_ne_nil (l : Str) (h : l ≠ []) : l.isEmpty = false := by
  cases l with
  | nil => exact absurd rfl h
  | cons a as => rfl

theorem writeParams_ext (m1 m2 : List (Str × Str)) (ps : List Str)
    (h : ∀ q ∈ ps, mapGet m1 q = mapGet m2 q) : writeParams m1 ps = writeParams m2 ps := by
  induction ps with
  | nil => rfl
  | cons q ps' ih =>
    rw [writeParams, writeParams, h q (List.mem_cons_self q ps'),
      ih (fun x hx => h x (List.mem_cons_of_mem q hx))]

/-! Lemmas about streams that end inside a case body, and blank streams. -/

theorem readBody_no_csep (lines : List Str) :
    ∀ (cur : Option Str) (c : TestCase),
      (∀ l ∈ lines, CASE_SEP.isPrefixOf (trim l) = false) →
      ∃ e, readBody lines cur c = .error e := by
  induction lines with
  | nil => intro cur c _; exact ⟨.eof, rfl⟩
  | cons l ls ih =>
    intro cur c hno
    have hl := hno l (List.mem_cons_self l ls)
    have hls : ∀ x ∈ ls, CASE_SEP.isPrefixOf (trim x) = false :=
      fun x hx => hno x (List.mem_cons_of_mem l hx)
    cases cur with
    | some p =>
      by_cases hsep : PARAM_SEP.isPrefixOf (trim l) = true
      · cases hg : mapGet c.params p with
        | none => exact ⟨.mapPanic, by simp [readBody, hsep, hg]⟩
        | some v =>
          obtain ⟨e, he⟩ := ih none _ hls
          exact ⟨e, by rw [readBody_close p l ls c v hg hsep]; exact he⟩
      · have hsep' : PARAM_SEP.isPrefixOf (trim l) = false := Bool.eq_false_iff.mpr hsep
        cases hg : mapGet c.params p with
        | none => exact ⟨.mapPanic, by simp [readBody, hsep', hg]⟩
        | some v =>
          obtain ⟨e, he⟩ := ih (some p) _ hls
          exact ⟨e, by rw [readBody_push p l ls c v hg hsep']; exact he⟩
    | none =>
      by_cases hblank : (trim l).isEmpty = true
      · obtain ⟨e, he⟩ := ih none c hls
        refine ⟨e, ?_⟩
        simp only [readBody, hl, Bool.false_eq_true, if_false, hblank, if_true]
        exact he
      · have hblank' : (trim l).isEmpty = false := Bool.eq_false_iff.mpr hblank
        by_cases hbr : (['['].isPrefixOf (trim l) && [']'].isSuffixOf (trim l)) = true
        · obtain ⟨e, he⟩ := ih (some (((trim l).drop 1).dropLast))
            { c with params := mapInsert c.params (((trim l).drop 1).dropLast) [],
                     order := c.order ++ [((trim l).drop 1).dropLast] } hls
          refine ⟨e, ?_⟩
          simp only [readBody, hl, Bool.false_eq_true, if_false, hblank', hbr, if_true]
          exact he
        · have hbr' : (['['].isPrefixOf (trim l) && [']'].isSuffixOf (trim l)) = false :=
            Bool.eq_false_iff.mpr hbr
          exact ⟨.badParamHeader (trim l),
            by simp only [readBody, hl, Bool.false_eq_true, if_false, hblank', hbr']⟩

theorem seekHeader_all_blank (lines : List Str)
    (h : ∀ l ∈ lines, (trim l).isEmpty = true) : seekHeader lines = .ok none := by
  induction lines with
  | nil => rfl
  | cons l ls ih =>
    rw [seekHeader_blank l ls (h l (List.mem_cons_self l ls))]
    exact ih (fun x hx => h x (List.mem_cons_of_mem l hx))

theorem parseCases_all_blank (lines : List Str)
    (h : ∀ l ∈ lines, (trim l).isEmpty = true) : parseCases lines = .ok [] := by
  have hpc : parseCase lines = .ok none := by
    unfold parseCase
    rw [seekHeader_all_blank lines h]
  rw [parseCases_eq, hpc]

/-! The claims. -/

/-- C1: after compare_and_update_param(p, v) the stored value of p is v,
created if absent, and a diff holding the previous value (the empty string
when p was absent) and v is appended to the diff list exactly when v
differs from that previous value; when they are equal the diff list is
unchanged. -/
theorem C1_compare_and_update (c : TestCase) (p v : Str) :
    mapGet (compareAndUpdateParam c p v).params p = some v ∧
    (compareAndUpdateParam c p v).diffs =
      (if (mapGet c.params p).getD [] = v then c.diffs
       else c.diffs ++
         [{ param := p, expected := v, actual := (mapGet c.params p).getD [] }]) := by
  unfold compareAndUpdateParam
  by_cases h : (mapGet c.params p).getD [] = v
  · simp [h, mapGet_mapInsert_self]
  · simp [h, mapGet_mapInsert_self]

/-- C2 counterexample: a single case, with no duplicate parameter names,
whose stored value is the parameter separator line itself serializes fine
but fails to parse back, so the unconditional round trip claimed is false. -/
theorem C2_counterexample :
    writeCases [⟨str "c", [(str "p", str "-----------")], [str "p"], []⟩] =
      some (str "[c]\n[p]\n-----------\n-----------\n===========\n\n") ∧
    parseCases (toLines (str "[c]\n[p]\n-----------\n-----------\n===========\n\n")) =
      .error (.badParamHeader PARAM_SEP) := by
  constructor
  · decide
  · decide

/-- C2 (amended): the round trip holds for case sequences without duplicate
parameter names provided additionally every case name is nonempty and free
of newlines, every ordered parameter exists in the map with a newline-free
name, and no line of a stored value starts, after trimming, with the
parameter separator marker (the wfCase predicate); parsing the serialized
text then reproduces the same names, parameter order and parameter
values. -/
theorem C2_roundtrip_amended (cs : List TestCase) (text : Str)
    (hwf : ∀ c ∈ cs, wfCase c = true) (_hnd : ∀ c ∈ cs, c.order.Nodup)
    (hw : writeCases cs = some text) :
    ∃ parsed, parseCases (toLines text) = .ok parsed ∧
      List.Forall₂ SameCase parsed cs :=
  roundtrip cs text hwf hw

theorem C2_witness :
    ∃ parsed,
      parseCases (toLines (str "[c]\n[p]\nv\n-----------\n===========\n\n")) = .ok parsed ∧
      List.Forall₂ SameCase parsed [⟨str "c", [(str "p", str "v")], [str "p"], []⟩] :=
  C2_roundtrip_amended [⟨str "c", [(str "p", str "v")], [str "p"], []⟩]
    (str "[c]\n[p]\nv\n-----------\n===========\n\n") (by decide) (by decide) (by decide)

/-- C8: a parse failure aborts the whole run with that error, for every
tester and in both modes, so no case result and no rewritten file is ever
produced; the run outcome is the bare error. -/
theorem C8_fail_fast (text : Str) (e : ParseErr) (tester : TestCase → TestCase)
    (update : Bool) (h : parseCases (toLines text) = .error e) :
    runTest text tester update = .error (.parseFail e) := by
  unfold runTest
  rw [h]

theorem C8_witness :
    runTest (str "[\n") (fun c => c) true = .error (.parseFail (.badCaseHeader ['['])) :=
  C8_fail_fast (str "[\n") (.badCaseHeader ['[']) (fun c => c) true (by decide)

/-- C9: while a parameter block is open, lines accumulate verbatim into the
value until a line matching the parameter-separator prefix closes the
block, and closing strips exactly one final character from the accumulated
value, which is the single final newline whenever the accumulation ends in
one. -/
theorem C9_param_block_value (st : TestCase) (p v0 sep : Str) (body rest : List Str)
    (hget : mapGet st.params p = some v0)
    (hbody : ∀ m ∈ body, PARAM_SEP.isPrefixOf (trim m) = false)
    (hsep : PARAM_SEP.isPrefixOf (trim sep) = true) :
    readBody (body ++ sep :: rest) (some p) st =
      readBody rest none
        { st with params := mapInsert st.params p (v0 ++ body.flatten).dropLast } ∧
    ∀ w : Str, v0 ++ body.flatten = w ++ ['\n'] →
      (v0 ++ body.flatten).dropLast = w := by
  refine ⟨readBody_run p body sep rest st v0 hget hbody hsep, ?_⟩
  intro w hw
  rw [hw, List.dropLast_concat]

theorem C9_witness :
    readBody [str "x\n", str "-----------\n"] (some (str "p"))
        ⟨str "c", [(str "p", [])], [str "p"], []⟩ =
      readBody [] none
        { (⟨str "c", [(str "p", [])], [str "p"], []⟩ : TestCase) with
          params := mapInsert [(str "p", [])] (str "p")
            (([] ++ ([str "x\n"] : List Str).flatten).dropLast) } :=
  (C9_param_block_value ⟨str "c", [(str "p", [])], [str "p"], []⟩ (str "p") []
    (str "-----------\n") [str "x\n"] [] (by decide) (by decide) (by decide)).1

/-- C10: compare_and_update_param never touches the order list: for a
parameter name absent from the case, the computed value lands in the map
only, the order list is unchanged, and serialization by write afterwards
produces exactly the same output as before the call, omitting the new
parameter. -/
theorem C10_fresh_param_not_written (c : TestCase) (p v : Str)
    (_hmap : mapGet c.params p = none) (horder : p ∉ c.order) :
    (compareAndUpdateParam c p v).order = c.order ∧
    mapGet (compareAndUpdateParam c p v).params p = some v ∧
    TestCase.write (compareAndUpdateParam c p v) = TestCase.write c := by
  have hparams : (compareAndUpdateParam c p v).params = mapInsert c.params p v := by
    unfold compareAndUpdateParam
    split <;> rfl
  have horderEq : (compareAndUpdateParam c p v).order = c.order := by
    unfold compareAndUpdateParam
    split <;> rfl
  have hname : (compareAndUpdateParam c p v).name = c.name := by
    unfold compareAndUpdateParam
    split <;> rfl
  refine ⟨horderEq, ?_, ?_⟩
  · rw [hparams]
    exact mapGet_mapInsert_self c.params p v
  · unfold TestCase.write
    rw [hparams, horderEq, hname,
      writeParams_ext (mapInsert c.params p v) c.params c.order
        (fun q hq => mapGet_mapInsert_ne c.params p v q
          (fun e => horder (by rw [e]; exact hq)))]

theorem C10_witness :
    (compareAndUpdateParam ⟨str "c", [(str "q", str "1")], [str "q"], []⟩
        (str "p") (str "2")).order = [str "q"] ∧
    mapGet (compareAndUpdateParam ⟨str "c", [(str "q", str "1")], [str "q"], []⟩
        (str "p") (str "2")).params (str "p") = some (str "2") ∧
    TestCase.write (compareAndUpdateParam ⟨str "c", [(str "q", str "1")], [str "q"], []⟩
        (str "p") (str "2")) =
      TestCase.write ⟨str "c", [(str "q", str "1")], [str "q"], []⟩ :=
  C10_fresh_param_not_written ⟨str "c", [(str "q", str "1")], [str "q"], []⟩
    (str "p") (str "2") (by decide) (by decide)

/-- C4 (amended): with no parameter open, a non-blank body line that does
not match the case separator and fails the bracket test, for instance one
missing its closing bracket, is a fatal format error carrying the trimmed
line; the empty-name header made of bare brackets, however, is accepted as
a parameter header and opens a parameter whose name is the empty string,
unlike case headers, where that header is rejected for lacking a name. -/
theorem C4_param_header_check :
    (∀ (l : Str) (rest : List Str) (c : TestCase),
      (trim l).isEmpty = false →
      CASE_SEP.isPrefixOf (trim l) = false →
      (['['].isPrefixOf (trim l) && [']'].isSuffixOf (trim l)) = false →
      readBody (l :: rest) none c = .error (.badParamHeader (trim l))) ∧
    (∀ (rest : List Str) (c : TestCase),
      readBody (['[', ']', '\n'] :: rest) none c =
        readBody rest (some [])
          { c with params := mapInsert c.params [] [], order := c.order ++ [[]] }) ∧
    (∀ (l : Str) (rest : List Str), trim l = ['[', ']'] →
      seekHeader (l :: rest) = .error .noCaseName) := by
  refine ⟨?_, ?_, ?_⟩
  · intro l rest c h1 h2 h3
    simp only [readBody, h2, Bool.false_eq_true, if_false, h1, h3]
  · intro rest c
    exact readBody_header [] rest c
  · intro l rest h
    simp only [seekHeader, h]
    rfl

/-- C4 counterexample: the empty-name parameter header, claimed to be
rejected like the empty-name case header, is in fact accepted: this body
parses successfully into a case holding a parameter with empty name. -/
theorem C4_counterexample :
    parseCase [str "[c]\n", str "[]\n", str "-----------\n", str "===========\n"] =
      .ok (some (⟨str "c", [([], [])], [[]], []⟩, [])) := by
  decide

theorem C4_witness :
    readBody [str "[oops\n"] none ⟨str "c", [], [], []⟩ =
      .error (.badParamHeader (str "[oops")) ∧
    readBody [['[', ']', '\n']] none ⟨str "c", [], [], []⟩ =
      readBody [] (some []) ⟨str "c", [([], [])], [[]], []⟩ ∧
    seekHeader [str "[]\n"] = .error .noCaseName := by
  refine ⟨?_, ?_, ?_⟩
  · have h := C4_param_header_check.1 (str "[oops\n") [] ⟨str "c", [], [], []⟩
      (by decide) (by decide) (by decide)
    exact h.trans (by decide)
  · have h := C4_param_header_check.2.1 [] ⟨str "c", [], [], []⟩
    exact h.trans (by decide)
  · exact C4_param_header_check.2.2 (str "[]\n") [] (by decide)

/-- C5: the aggregated failure report equals, for every case list, the
concatenation over cases in file order of an empty contribution for
diff-free cases and otherwise a case marker with the case name followed by
one mismatch record per diff in append order, each record showing the
previously stored value under the expected label and the newly computed
value under the actual label; in a run the returned report is exactly this
aggregation over the post-run cases and the success flag is true exactly
when the report is empty. -/
theorem C5_failure_report :
    (∀ cases : List TestCase, buildFailures cases = reportSpec cases) ∧
    (∀ (text : Str) (tester : TestCase → TestCase) (cs : List TestCase),
      parseCases (toLines text) = .ok cs →
      runTest text tester false =
        .ok ⟨buildFailures (cs.map tester), none,
             (buildFailures (cs.map tester)).isEmpty⟩) := by
  constructor
  · exact buildFailures_eq
  · intro text tester cs h
    unfold runTest
    rw [h]
    rfl

theorem C5_witness :
    buildFailures [⟨str "c", [], [], [⟨str "p", str "n", str "o"⟩]⟩] =
      reportSpec [⟨str "c", [], [], [⟨str "p", str "n", str "o"⟩]⟩] ∧
    runTest (str "[c]\n===========\n\n") (fun c => c) false =
      .ok ⟨buildFailures ([⟨str "c", [], [], []⟩].map (fun c => c)), none,
           (buildFailures ([⟨str "c", [], [], []⟩].map (fun c => c))).isEmpty⟩ :=
  ⟨C5_failure_report.1 [⟨str "c", [], [], [⟨str "p", str "n", str "o"⟩]⟩],
   C5_failure_report.2 (str "[c]\n===========\n\n") (fun c => c)
     [⟨str "c", [], [], []⟩] (by decide)⟩

/-- C6: a stream that ends after a case header was read, with no line
matching the case separator remaining, makes parsing fail with a fatal
error and no partial case is produced; a stream holding only blank lines,
or nothing at all, ends the case sequence normally with zero cases. -/
theorem C6_eof_in_body :
    (∀ (lines : List Str) (n : Str) (rest : List Str),
      seekHeader lines = .ok (some (n, rest)) →
      (∀ l ∈ rest, CASE_SEP.isPrefixOf (trim l) = false) →
      ∃ e, parseCase lines = .error e) ∧
    (∀ lines : List Str, (∀ l ∈ lines, (trim l).isEmpty = true) →
      parseCases lines = .ok []) := by
  constructor
  · intro lines n rest hseek hno
    obtain ⟨e, he⟩ := readBody_no_csep rest none ⟨n, [], [], []⟩ hno
    refine ⟨e, ?_⟩
    unfold parseCase
    rw [hseek]
    dsimp only
    rw [he]
  · exact parseCases_all_blank

theorem C6_witness :
    (∃ e, parseCase [str "[c]\n", str "[p]\n"] = .error e) ∧
    parseCases [str "\n", str "  \n"] = .ok [] :=
  ⟨C6_eof_in_body.1 [str "[c]\n", str "[p]\n"] (str "c") [str "[p]\n"]
    (by decide) (by decide),
   C6_eof_in_body.2 [str "\n", str "  \n"] (by decide)⟩

/-- C7: in update mode with at least one recorded diff, the run returns
both the rewritten file contents, serializing the post-run stored values,
and a false success flag; the failure signal equals the one check mode
produces on the same input. -/
theorem C7_update_rewrites_and_fails (text : Str) (tester : TestCase → TestCase)
    (cs : List TestCase) (out : Str)
    (hp : parseCases (toLines text) = .ok cs)
    (hw : writeCases (cs.map tester) = some out)
    (hd : ∃ c ∈ cs.map tester, c.diffs ≠ []) :
    runTest text tester true = .ok ⟨buildFailures (cs.map tester), some out, false⟩ ∧
    runTest text tester false = .ok ⟨buildFailures (cs.map tester), none, false⟩ := by
  obtain ⟨c, hc, hcd⟩ := hd
  have hne : (buildFailures (cs.map tester)).isEmpty = false :=
    isEmpty_false_of_ne_nil _ (buildFailures_ne_nil (cs.map tester) c hc hcd)
  constructor
  · unfold runTest
    rw [hp]
    simp [hw, hne]
  · unfold runTest
    rw [hp]
    simp [hne]

theorem C7_witness :
    runTest (str "[c]\n[p]\nold\n-----------\n===========\n\n")
        (fun c => compareAndUpdateParam c (str "p") (str "new")) true =
      .ok ⟨buildFailures ([⟨str "c", [(str "p", str "old")], [str "p"], []⟩].map
            (fun c => compareAndUpdateParam c (str "p") (str "new"))),
          some (str "[c]\n[p]\nnew\n-----------\n===========\n\n"), false⟩ ∧
    runTest (str "[c]\n[p]\nold\n-----------\n===========\n\n")
        (fun c => compareAndUpdateParam c (str "p") (str "new")) false =
      .ok ⟨buildFailures ([⟨str "c", [(str "p", str "old")], [str "p"], []⟩].map
            (fun c => compareAndUpdateParam c (str "p") (str "new"))), none, false⟩ :=
  C7_update_rewrites_and_fails (str "[c]\n[p]\nold\n-----------\n===========\n\n")
    (fun c => compareAndUpdateParam c (str "p") (str "new"))
    [⟨str "c", [(str "p", str "old")], [str "p"], []⟩]
    (str "[c]\n[p]\nnew\n-----------\n===========\n\n")
    (by decide) (by decide) (by decide)

/-- C3 counterexample: a case body defining the same parameter twice does
supersede the value in the map, but the order list records both
occurrences, so the writer serializes the parameter header twice, not
exactly once as claimed. -/
theorem C3_counterexample :
    parseCases [str "[c]\n", str "[p]\n", str "1\n", str "-----------\n",
        str "[p]\n", str "2\n", str "-----------\n", str "===========\n"] =
      .ok [⟨str "c", [(str "p", str "2")], [str "p", str "p"], []⟩] ∧
    TestCase.write ⟨str "c", [(str "p", str "2")], [str "p", str "p"], []⟩ =
      some (str "[c]\n[p]\n2\n-----------\n[p]\n2\n-----------\n===========\n\n") ∧
    (toLines (str "[c]\n[p]\n2\n-----------\n[p]\n2\n-----------\n===========\n\n")).count
      (str "[p]\n") = 2 := by
  refine ⟨by decide, by decide, by decide⟩

/-- C3 (amended): when a case body defines the same parameter header twice,
the second value supersedes the first in the stored map, the order list
records the name once per occurrence, and the writer serializes the
parameter once per occurrence, each block carrying the superseding
value. -/
theorem C3_duplicate_param (p v1 v2 : Str) (hv1 : valOk v1 = true) (hv2 : valOk v2 = true) :
    ∃ c : TestCase,
      parseCases (('[' :: (['c'] ++ [']', '\n'])) :: ('[' :: (p ++ [']', '\n'])) ::
          (toLines (v1 ++ ['\n']) ++ (PARAM_SEP ++ ['\n']) ::
            ('[' :: (p ++ [']', '\n'])) ::
              (toLines (v2 ++ ['\n']) ++ (PARAM_SEP ++ ['\n']) ::
                (CASE_SEP ++ ['\n']) :: []))) = .ok [c] ∧
      mapGet c.params p = some v2 ∧ c.order = [p, p] ∧
      TestCase.write c =
        some (('[' :: (['c'] ++ [']', '\n'])) ++
          (('[' :: (p ++ [']', '\n'])) ++ (v2 ++ ['\n']) ++ (PARAM_SEP ++ ['\n'])) ++
          (('[' :: (p ++ [']', '\n'])) ++ (v2 ++ ['\n']) ++ (PARAM_SEP ++ ['\n'])) ++
          (CASE_SEP ++ ['\n', '\n'])) := by
  refine ⟨⟨['c'], mapInsert (mapInsert [] p v1) p v2, [p, p], []⟩, ?_, ?_, rfl, ?_⟩
  · have hpc : parseCase (('[' :: (['c'] ++ [']', '\n'])) :: ('[' :: (p ++ [']', '\n'])) ::
        (toLines (v1 ++ ['\n']) ++ (PARAM_SEP ++ ['\n']) ::
          ('[' :: (p ++ [']', '\n'])) ::
            (toLines (v2 ++ ['\n']) ++ (PARAM_SEP ++ ['\n']) ::
              (CASE_SEP ++ ['\n']) :: []))) =
        .ok (some (⟨['c'], mapInsert (mapInsert [] p v1) p v2, [p, p], []⟩, [])) := by
      unfold parseCase
      rw [seekHeader_hdr ['c'] _ (by decide)]
      dsimp only
      rw [readBody_block p v1 _ _ hv1, readBody_block p v2 _ _ hv2]
      simp only [readBody, csep_trim_nl, if_true]
      simp
    rw [parseCases_eq, hpc]
    dsimp only
    rw [show parseCases ([] : List Str) = .ok [] from by decide]
  · rw [mapInsert_mapInsert]
    exact mapGet_mapInsert_self [] p v2
  · have hget : mapGet (mapInsert (mapInsert [] p v1) p v2) p = some v2 := by
      rw [mapInsert_mapInsert]
      exact mapGet_mapInsert_self [] p v2
    have h0 : writeParams (mapInsert (mapInsert [] p v1) p v2) [] = some [] := rfl
    have h1 : writeParams (mapInsert (mapInsert [] p v1) p v2) [p] =
        some ((('[' :: (p ++ [']', '\n'])) ++ (v2 ++ ['\n']) ++ (PARAM_SEP ++ ['\n'])) ++ []) := by
      rw [writeParams, hget, h0]
    have h2 : writeParams (mapInsert (mapInsert [] p v1) p v2) [p, p] =
        some ((('[' :: (p ++ [']', '\n'])) ++ (v2 ++ ['\n']) ++ (PARAM_SEP ++ ['\n'])) ++
          ((('[' :: (p ++ [']', '\n'])) ++ (v2 ++ ['\n']) ++ (PARAM_SEP ++ ['\n'])) ++ [])) := by
      rw [writeParams, hget, h1]
    unfold TestCase.write
    rw [h2]
    simp [List.append_assoc]

theorem C3_witness :
    ∃ c : TestCase,
      parseCases (('[' :: (['c'] ++ [']', '\n'])) :: ('[' :: (str "p" ++ [']', '\n'])) ::
          (toLines (str "1" ++ ['\n']) ++ (PARAM_SEP ++ ['\n']) ::
            ('[' :: (str "p" ++ [']', '\n'])) ::
              (toLines (str "2" ++ ['\n']) ++ (PARAM_SEP ++ ['\n']) ::
                (CASE_SEP ++ ['\n']) :: []))) = .ok [c] ∧
      mapGet c.params (str "p") = some (str "2") ∧ c.order = [str "p", str "p"] ∧
      TestCase.write c =
        some (('[' :: (['c'] ++ [']', '\n'])) ++
          (('[' :: (str "p" ++ [']', '\n'])) ++ (str "2" ++ ['\n']) ++ (PARAM_SEP ++ ['\n'])) ++
          (('[' :: (str "p" ++ [']', '\n'])) ++ (str "2" ++ ['\n']) ++ (PARAM_SEP ++ ['\n'])) ++
          (CASE_SEP ++ ['\n', '\n'])) :=
  C3_duplicate_param (str "p") (str "1") (str "2") (by decide) (by decide)
